import Mathlib

/-!
Verification of the core data-processing pipeline of a browser-based data
exploration tool: per-column statistics (`calculateStatistics`), the 3D point
projection (`prepare3DData`) — both from `src/utils/dataParser.ts` — and the
filter evaluator (`filteredData`) from `src/hooks/useDataProcessing.ts`.

The embedding models a JavaScript cell value as `JSVal` (numbers as exact
rationals, strings, and `null`), a row as an association list from column name
to value (`row[k]` becomes `lookupRow`, returning `none` for an absent key,
i.e. JS `undefined`), and JS `NaN` as the `none` case of `Option ℚ` results of
numeric coercion.  JS numbers are doubles; we idealise them as `ℚ` (plus
`Real.sqrt` for the one square root), so arithmetic statements are about the
idealised exact values.
-/

/-- A JavaScript value stored in a dataset cell: a number, a string, or null. -/
inductive JSVal where
  | num : ℚ → JSVal
  | str : String → JSVal
  | null : JSVal
deriving DecidableEq

/-- A row of the dataset: an association list from column name to cell value.
Models a JS object (keys are unique in practice); `lookupRow` returns the
first binding, and `none` models an absent key (JS `undefined`). -/
def Row := List (String × JSVal)

instance : DecidableEq Row := by unfold Row; infer_instance

/-- JS `row[k]`: `some v` when the key is present, `none` for `undefined`. -/
def lookupRow (row : Row) (k : String) : Option JSVal :=
  List.lookup k row

/-- ASCII whitespace recognised when trimming a string before numeric parsing. -/
def isWS (c : Char) : Bool :=
  c = ' ' || c = '\t' || c = '\n' || c = '\r'

/-- Trim leading and trailing whitespace from a character list. -/
def trimWS (cs : List Char) : List Char :=
  ((cs.dropWhile isWS).reverse.dropWhile isWS).reverse

/-- Consume an optional sign; returns (isNegative, rest). -/
def parseSign : List Char → Bool × List Char
  | '+' :: cs => (false, cs)
  | '-' :: cs => (true, cs)
  | cs => (false, cs)

/-- Consume a maximal run of decimal digits, returned as digit values. -/
def takeDigits : List Char → List ℕ × List Char
  | [] => ([], [])
  | c :: cs =>
    if c.isDigit then
      let r := takeDigits cs
      ((c.toNat - 48) :: r.1, r.2)
    else ([], c :: cs)

/-- Value of a digit string, most significant first. -/
def digitsToNat (ds : List ℕ) : ℕ :=
  ds.foldl (fun a d => 10 * a + d) 0

/-- Parse `digits [. digits]` or `. digits`; `none` when no digit is present. -/
def parseMantissa (cs : List Char) : Option (ℚ × List Char) :=
  let p := takeDigits cs
  match p.2 with
  | '.' :: r2 =>
    let q := takeDigits r2
    if p.1 = [] ∧ q.1 = [] then none
    else some ((digitsToNat p.1 : ℚ) + (digitsToNat q.1 : ℚ) / (10 : ℚ) ^ q.1.length, q.2)
  | _ => if p.1 = [] then none else some ((digitsToNat p.1 : ℚ), p.2)

/-- Parse an optional exponent part `e[+-]digits`. `none` means malformed. -/
def parseExp : List Char → Option (ℤ × List Char)
  | 'e' :: r =>
    let s := parseSign r
    let d := takeDigits s.2
    if d.1 = [] then none
    else some ((if s.1 then -(digitsToNat d.1 : ℤ) else (digitsToNat d.1 : ℤ)), d.2)
  | 'E' :: r =>
    let s := parseSign r
    let d := takeDigits s.2
    if d.1 = [] then none
    else some ((if s.1 then -(digitsToNat d.1 : ℤ) else (digitsToNat d.1 : ℤ)), d.2)
  | cs => some (0, cs)

/-- Scale a mantissa by a power of ten (a trivial exponent leaves it alone). -/
def applyExp (m : ℚ) (e : ℤ) : ℚ :=
  if e = 0 then m else m * (10 : ℚ) ^ e

/-- JS `Number(s)` on a string: whitespace is trimmed, the empty string is 0,
a signed decimal literal (optionally with fraction and exponent) is its value,
anything else is NaN (`none`).  (`Infinity` and radix literals such as `0x10`
are not modelled; no dataset in scope uses them.) -/
def jsNumberOfString (s : String) : Option ℚ :=
  let cs := trimWS s.toList
  if cs = [] then some 0
  else
    let sg := parseSign cs
    match parseMantissa sg.2 with
    | none => none
    | some (m, r) =>
      match parseExp r with
      | none => none
      | some (e, r2) =>
        if r2 = [] then some (applyExp (if sg.1 then -m else m) e)
        else none

/-- Decimal digits of the fractional part `q ∈ [0,1)`, at most `fuel` digits. -/
def fracDigits : ℕ → ℚ → List Char
  | 0, _ => []
  | fuel + 1, q =>
    if q = 0 then []
    else Char.ofNat (48 + (Rat.floor (q * 10)).toNat) :: fracDigits fuel (q * 10 - Rat.floor (q * 10))

/-- Decimal string of a nonnegative rational (integer part, then up to 20
fractional digits; exact for decimal fractions, which is all that JS prints
for the doubles idealised here). -/
def qToStringNonneg (q : ℚ) : String :=
  let fp := q - Rat.floor q
  if fp = 0 then toString (Rat.floor q).toNat
  else toString (Rat.floor q).toNat ++ "." ++ String.mk (fracDigits 20 fp)

/-- JS `String(n)` for a number `n` (idealised decimal form). -/
def qToString (q : ℚ) : String :=
  if q < 0 then "-" ++ qToStringNonneg (-q) else qToStringNonneg q

/-- JS `String(v)` for a cell value. -/
def jsStringOfVal : JSVal → String
  | .num q => qToString q
  | .str s => s
  | .null => "null"

/-! ### `extractNumericalData` (src/utils/dataParser.ts lines 5-20) -/

/-- The test `typeof firstRow[key] === 'number' || !isNaN(Number(firstRow[key]))` for an
(optionally absent) cell.  Note `Number(null) = 0` and `Number("") = 0`, so
`null` and the empty string count as numeric, while an absent cell gives
`Number(undefined) = NaN`. -/
def isNumericCodeCell : Option JSVal → Bool
  | none => false
  | some (.num _) => true
  | some (.str s) => (jsNumberOfString s).isSome
  | some .null => true

/-- The coercion `typeof row[column] === 'number' ? row[column] : Number(row[column]) || 0`:
a number stays itself, a string becomes its parsed value (NaN collapses to 0
via `|| 0`, and `Number("") = 0` also gives 0), `null` and absent cells give 0. -/
def coerceCell : Option JSVal → ℚ
  | some (.num q) => q
  | some (.str s) => (jsNumberOfString s).getD 0
  | some .null => 0
  | none => 0

/-- Result record of `extractNumericalData`: `{ columns, values }`. -/
structure Extracted where
  columns : List String
  values : List (List ℚ)
deriving DecidableEq

/-- Source `extractNumericalData`: the numeric columns are the keys of the FIRST row
whose first-row value passes `isNumericCodeCell`; `values` holds, per such
column, every row's coerced value (in row order). -/
def extractNumericalData (data : List Row) : Extracted :=
  match data with
  | [] => ⟨[], []⟩
  | firstRow :: _ =>
    let numericalColumns :=
      (firstRow.map Prod.fst).filter (fun key => isNumericCodeCell (lookupRow firstRow key))
    ⟨numericalColumns,
     numericalColumns.map (fun column => data.map (fun row => coerceCell (lookupRow row column)))⟩

/-! ### `calculateStatistics` (src/utils/dataParser.ts lines 25-53) -/

/-- Smallest element of a nonempty list, as `Math.min(...l)` (0 for `[]`,
which the code never reaches: the dataset is nonempty there). -/
def listMin : List ℚ → ℚ
  | [] => 0
  | x :: xs => xs.foldl min x

/-- Largest element of a nonempty list, as `Math.max(...l)`. -/
def listMax : List ℚ → ℚ
  | [] => 0
  | x :: xs => xs.foldl max x

/-- One per-column statistic.  The source stores `stdDev = Math.sqrt(avgSquareDiff)`;
exact square roots leave `ℚ`, so we store the radicand `avgSquareDiff`
(the population variance) and expose the standard deviation as `Stat.stdDev`. -/
structure Stat where
  column : String
  min : ℚ
  max : ℚ
  avg : ℚ
  avgSquareDiff : ℚ
  sum : ℚ
deriving DecidableEq

/-- The source's `stdDev = Math.sqrt(avgSquareDiff)`, as a real number. -/
noncomputable def Stat.stdDev (s : Stat) : ℝ :=
  Real.sqrt s.avgSquareDiff

/-- The statistic of one column: sum and mean over all coerced values (the
divisor is the full row count), min/max by full scan, then the mean of the
squared deviations (population variance). -/
def mkStat (column : String) (columnValues : List ℚ) : Stat :=
  let sum := columnValues.foldl (· + ·) 0
  let avg := sum / (columnValues.length : ℚ)
  let squareDiffs := columnValues.map (fun value => (value - avg) ^ 2)
  { column := column
    min := listMin columnValues
    max := listMax columnValues
    avg := avg
    avgSquareDiff := squareDiffs.foldl (· + ·) 0 / (squareDiffs.length : ℚ)
    sum := sum }

/-- Return value of `calculateStatistics`: the empty-input branch returns the
plain object `{}` (not an array), every other branch returns an array. -/
inductive StatsResult where
  | emptyObj : StatsResult
  | list : List Stat → StatsResult
deriving DecidableEq

/-- Source `calculateStatistics`: `{}` for an empty dataset, otherwise one `Stat` per
numeric column, in column order (`columns.map((column, index) => ...)` pairs
each column with `values[index]`, i.e. a zip). -/
def calculateStatistics (data : List Row) : StatsResult :=
  match data with
  | [] => .emptyObj
  | _ =>
    let e := extractNumericalData data
    .list (List.zipWith mkStat e.columns e.values)

/-- Names of the columns that receive a statistic (empty for the `{}` result). -/
def statsColumns (data : List Row) : List String :=
  match calculateStatistics data with
  | .emptyObj => []
  | .list l => l.map Stat.column

/-! ### `prepare3DData` (src/utils/dataParser.ts lines 58-109) -/

/-- A 3D point `{x, y, z, value}`.  `value` is an `Option` because it is read
as `values[3][i]` / `values[0][i]`, whose inner access can be JS `undefined`. -/
structure Point3D where
  x : ℚ
  y : ℚ
  z : ℚ
  value : Option ℚ
deriving DecidableEq

/-- Return record of `prepare3DData`: `{ points, axisLabels }`. -/
structure Vis3D where
  points : List Point3D
  axisLabels : List String
deriving DecidableEq

/-- One iteration of the `while (usableColumns.length < 3)` loop: a state with
3 axes already passes through unchanged, otherwise exactly one synthesized
axis is appended.  `n` is the row count; `used` counts the `Math.random()`
calls consumed so far and `rand k` is the value of the `k`-th call, so one
call per mapped element mirrors the source's call order.  The result is
`(columns, values, used)`. -/
def synthStep (n used : ℕ) (rand : ℕ → ℚ) (cols : List String) (vals : List (List ℚ)) :
    List String × List (List ℚ) × ℕ :=
  if 3 ≤ cols.length then (cols, vals, used)
  else if cols.length = 0 then
    -- usableColumns.push('Index'); usableValues.push(data.map((_, i) => i))
    (cols ++ ["Index"], vals ++ [(List.range n).map (Nat.cast : ℕ → ℚ)], used)
  else if cols.length = 1 then
    -- usableValues.push(usableValues[0].map(v => v * 0.7 + Math.random() * 0.5))
    (cols ++ ["Computed Y"],
     vals ++ [(vals.headD []).enum.map (fun p => p.2 * (7/10) + rand (used + p.1) * (1/2))],
     used + n)
  else
    -- usableValues.push(data.map((_, i) =>
    --   (usableValues[0][i] + usableValues[1][i]) / 2 * (0.8 + Math.random() * 0.4)))
    (cols ++ ["Computed Z"],
     vals ++ [(List.range n).map (fun i =>
       ((vals.headD []).getD i 0 + (vals[1]?.getD []).getD i 0) / 2
         * ((4/5) + rand (used + i) * (2/5)))],
     used + n)

/-- The synthesis loop.  Each non-trivial iteration appends one axis and the
initial state has at most 3 axes (`slice(0, 3)`), so unrolling three steps
(completed states pass through unchanged) is the loop, exactly. -/
def synthAxes (n : ℕ) (rand : ℕ → ℚ) (cols : List String) (vals : List (List ℚ)) :
    List String × List (List ℚ) :=
  let s1 := synthStep n 0 rand cols vals
  let s2 := synthStep n s1.2.2 rand s1.1 s1.2.1
  let s3 := synthStep n s2.2.2 rand s2.1 s2.2.1
  (s3.1, s3.2.1)

/-- The first-3-axes pair (after synthesis) fed to normalization. -/
def usableAxes (data : List Row) (rand : ℕ → ℚ) : List String × List (List ℚ) :=
  synthAxes data.length rand
    ((extractNumericalData data).columns.take 3)
    ((extractNumericalData data).values.take 3)

/-- Min-max normalization of one axis:
`columnValues.map(v => range ? (v - min) / range * 2 - 1 : 0)`. -/
def normalizeAxis (columnValues : List ℚ) : List ℚ :=
  let mn := listMin columnValues
  let mx := listMax columnValues
  let range := mx - mn
  columnValues.map (fun v => if range = 0 then 0 else (v - mn) / range * 2 - 1)

/-- Access `normalizedValues[k][i]`, with 0 for out-of-range access (never reached:
there are always exactly 3 normalized axes of full row length). -/
def axisAt (normVals : List (List ℚ)) (k i : ℕ) : ℚ :=
  ((normVals[k]?.getD [])[i]?).getD 0

/-- The point-coloring value `values.length > 3 ? values[3][i] : values[0][i]`.
When there are zero numeric columns, `values[0]` is JS `undefined` and the
element access on it throws a TypeError, modelled as `.error ()`.  An
out-of-range inner access is JS `undefined`, modelled as `.ok none`. -/
def pointValue (values : List (List ℚ)) (i : ℕ) : Except Unit (Option ℚ) :=
  if 3 < values.length then
    match values[3]? with
    | none => .error ()
    | some col => .ok col[i]?
  else
    match values[0]? with
    | none => .error ()
    | some col => .ok col[i]?

/-- Build the point for row `i`. -/
def mkPoint (values : List (List ℚ)) (normVals : List (List ℚ)) (i : ℕ) :
    Except Unit Point3D :=
  (pointValue values i).map (fun v =>
    { x := axisAt normVals 0 i
      y := axisAt normVals 1 i
      z := axisAt normVals 2 i
      value := v })

/-- Source `data.map((_, i) => ...)` with a body that can throw: the first throw
aborts the whole map. -/
def buildPoints (f : ℕ → Except Unit Point3D) : List ℕ → Except Unit (List Point3D)
  | [] => .ok []
  | i :: is =>
    match f i with
    | .error e => .error e
    | .ok p =>
      match buildPoints f is with
      | .error e => .error e
      | .ok ps => .ok (p :: ps)

/-- Source `prepare3DData`: empty dataset short-circuits to `{points: [], axisLabels: []}`;
otherwise take/synthesize 3 axes, min-max normalize each, and emit one point
per row; `axisLabels` is `usableColumns.slice(0, 3)`. -/
def prepare3DData (data : List Row) (rand : ℕ → ℚ) : Except Unit Vis3D :=
  if data = [] then .ok ⟨[], []⟩
  else
    match buildPoints
        (mkPoint (extractNumericalData data).values
          ((usableAxes data rand).2.map normalizeAxis))
        (List.range data.length) with
    | .error e => .error e
    | .ok pts => .ok ⟨pts, (usableAxes data rand).1.take 3⟩

/-! ### `filteredData` (src/hooks/useDataProcessing.ts lines 69-133) -/

/-- The five filter operators. -/
inductive FilterOp where
  | equals | notEquals | greaterThan | lessThan | contains
deriving DecidableEq

/-- A predicate value is a string or a number (`value: string | number`). -/
inductive FilterVal where
  | num : ℚ → FilterVal
  | str : String → FilterVal
deriving DecidableEq

/-- One filter: `{ column, operator, value }`. -/
structure FilterOptions where
  column : String
  operator : FilterOp
  value : FilterVal
deriving DecidableEq

/-- JS `Number(x)` of a cell value; `none` is NaN.  (`Number(null) = 0`.) -/
def jsNumberOfVal : JSVal → Option ℚ
  | .num q => some q
  | .str s => jsNumberOfString s
  | .null => some 0

/-- JS `Number(x)` of a predicate value. -/
def jsNumberOfFilterVal : FilterVal → Option ℚ
  | .num q => some q
  | .str s => jsNumberOfString s

/-- JS `String(x)` of a predicate value. -/
def jsStringOfFilterVal : FilterVal → String
  | .num q => qToString q
  | .str s => s

/-- JS loose equality `cellValue == filter.value`.  Number vs string compares
the number with `Number(string)`; NaN equals nothing; `null` loosely equals
neither a number nor a string (the code also never reaches the null case: it
returns early on null/undefined cells). -/
def looseEq : JSVal → FilterVal → Bool
  | .num a, .num b => a = b
  | .num a, .str b =>
    match jsNumberOfString b with
    | some q => a = q
    | none => false
  | .str a, .str b => a = b
  | .str a, .num b =>
    match jsNumberOfString a with
    | some q => q = b
    | none => false
  | .null, _ => false

/-- JS `t.startsWith(p)` on char lists. -/
def listStartsWith : List Char → List Char → Bool
  | [], _ => true
  | _ :: _, [] => false
  | p :: ps, t :: ts => p == t && listStartsWith ps ts

/-- JS `text.includes(pat)` on char lists. -/
def listContainsSub (pat : List Char) : List Char → Bool
  | [] => pat.isEmpty
  | c :: ts => listStartsWith pat (c :: ts) || listContainsSub pat ts

/-- JS `s.toLowerCase()` (ASCII idealisation of the JS Unicode lowering). -/
def toLowerList (s : String) : List Char :=
  s.toList.map Char.toLower

/-- The `switch (filter.operator)` body, for a non-null cell value. -/
def evalOp (op : FilterOp) (cell : JSVal) (fval : FilterVal) : Bool :=
  match op with
  | .equals => looseEq cell fval
  | .notEquals => !looseEq cell fval
  | .greaterThan =>
    match jsNumberOfVal cell, jsNumberOfFilterVal fval with
    | some a, some b => b < a
    | _, _ => false
  | .lessThan =>
    match jsNumberOfVal cell, jsNumberOfFilterVal fval with
    | some a, some b => a < b
    | _, _ => false
  | .contains =>
    listContainsSub (toLowerList (jsStringOfFilterVal fval)) (toLowerList (jsStringOfVal cell))

/-- One row against one filter: a null or absent cell fails outright, any
other cell is evaluated by the operator switch. -/
def rowPasses (row : Row) (f : FilterOptions) : Bool :=
  match lookupRow row f.column with
  | none => false
  | some .null => false
  | some v => evalOp f.operator v f.value

/-- The `filteredData` memo: `[]` for no data, the raw data unchanged when no
filter is active, else `rawData.filter(row => filters.every(...))`.  (The
index the hook builds for large datasets is dead code — the filter below
never reads it — so it has no observable effect to model.) -/
def filteredData (rawData : List Row) (filters : List FilterOptions) : List Row :=
  if rawData = [] then []
  else if filters = [] then rawData
  else rawData.filter (fun row => filters.all (fun f => rowPasses row f))

/-! ### Spec-side predicate (for the column-classification claim)

The spec classifies a column as numeric by looking at the non-null values
present in ANY row and excludes the empty string; the code (above) looks only
at the first row and `Number("") = 0` makes the empty string numeric.  This
second definition follows the spec's words, to be compared with
`extractNumericalData`. -/

/-- Modelled from the spec's words: a column is numeric iff some row has a
non-null value for it that is already a number or whose string form parses as
a number, the empty string not counting as numeric. -/
def specNumericColumn (data : List Row) (col : String) : Bool :=
  data.any (fun row =>
    match lookupRow row col with
    | some (.num _) => true
    | some (.str s) => !(s == "") && (jsNumberOfString s).isSome
    | _ => false)

/-! ### Concrete data used by the claims -/

/-- The spec's end-to-end rows `[{month:"Jan",sales:100}, ...]`. -/
def sampleRows : List Row :=
  [[("month", JSVal.str "Jan"), ("sales", JSVal.num 100)],
   [("month", JSVal.str "Feb"), ("sales", JSVal.num 200)],
   [("month", JSVal.str "Mar"), ("sales", JSVal.num 300)]]

/-- The statistic the end-to-end scenario expects for the `sales` column. -/
def salesStat : Stat :=
  { column := "sales", min := 100, max := 300, avg := 200,
    avgSquareDiff := 20000 / 3, sum := 600 }

/-- A deterministic stand-in for `Math.random`: always 0. -/
def zeroRand : ℕ → ℚ := fun _ => 0

/-- A second stand-in for `Math.random`: always 1/2. -/
def halfRand : ℕ → ℚ := fun _ => 1/2


/-! ### Helper lemmas: fold, min/max, sums -/

lemma foldl_min_le_init (xs : List ℚ) (a : ℚ) : xs.foldl min a ≤ a := by
  induction xs generalizing a with
  | nil => simp
  | cons b t ih => exact le_trans (ih (min a b)) (min_le_left a b)

lemma foldl_min_le_mem (xs : List ℚ) (a : ℚ) {x : ℚ} (hx : x ∈ xs) :
    xs.foldl min a ≤ x := by
  induction xs generalizing a with
  | nil => simp at hx
  | cons b t ih =>
    rcases List.mem_cons.mp hx with rfl | hxt
    · exact le_trans (foldl_min_le_init t (min a x)) (min_le_right a x)
    · exact ih (min a b) hxt

lemma le_foldl_max_init (xs : List ℚ) (a : ℚ) : a ≤ xs.foldl max a := by
  induction xs generalizing a with
  | nil => simp
  | cons b t ih => exact le_trans (le_max_left a b) (ih (max a b))

lemma le_foldl_max_mem (xs : List ℚ) (a : ℚ) {x : ℚ} (hx : x ∈ xs) :
    x ≤ xs.foldl max a := by
  induction xs generalizing a with
  | nil => simp at hx
  | cons b t ih =>
    rcases List.mem_cons.mp hx with rfl | hxt
    · exact le_trans (le_max_right a x) (le_foldl_max_init t (max a x))
    · exact ih (max a b) hxt

lemma listMin_le {l : List ℚ} {x : ℚ} (hx : x ∈ l) : listMin l ≤ x := by
  cases l with
  | nil => simp at hx
  | cons a t =>
    rcases List.mem_cons.mp hx with rfl | hxt
    · exact foldl_min_le_init t x
    · exact foldl_min_le_mem t a hxt

lemma le_listMax {l : List ℚ} {x : ℚ} (hx : x ∈ l) : x ≤ listMax l := by
  cases l with
  | nil => simp at hx
  | cons a t =>
    rcases List.mem_cons.mp hx with rfl | hxt
    · exact le_foldl_max_init t x
    · exact le_foldl_max_mem t a hxt

lemma foldl_min_mem (xs : List ℚ) (a : ℚ) : xs.foldl min a = a ∨ xs.foldl min a ∈ xs := by
  induction xs generalizing a with
  | nil => exact Or.inl rfl
  | cons b t ih =>
    rcases ih (min a b) with h | h
    · rcases min_choice a b with hm | hm
      · exact Or.inl (by rw [List.foldl_cons, h, hm])
      · exact Or.inr (by rw [List.foldl_cons, h, hm]; exact List.mem_cons_self b t)
    · exact Or.inr (List.mem_cons_of_mem b h)

lemma foldl_max_mem (xs : List ℚ) (a : ℚ) : xs.foldl max a = a ∨ xs.foldl max a ∈ xs := by
  induction xs generalizing a with
  | nil => exact Or.inl rfl
  | cons b t ih =>
    rcases ih (max a b) with h | h
    · rcases max_choice a b with hm | hm
      · exact Or.inl (by rw [List.foldl_cons, h, hm])
      · exact Or.inr (by rw [List.foldl_cons, h, hm]; exact List.mem_cons_self b t)
    · exact Or.inr (List.mem_cons_of_mem b h)

lemma listMin_mem {l : List ℚ} (h : l ≠ []) : listMin l ∈ l := by
  cases l with
  | nil => exact absurd rfl h
  | cons a t =>
    rcases foldl_min_mem t a with h1 | h1
    · rw [listMin, h1]; exact List.mem_cons_self a t
    · exact List.mem_cons_of_mem a (by rw [listMin]; exact h1)

lemma listMax_mem {l : List ℚ} (h : l ≠ []) : listMax l ∈ l := by
  cases l with
  | nil => exact absurd rfl h
  | cons a t =>
    rcases foldl_max_mem t a with h1 | h1
    · rw [listMax, h1]; exact List.mem_cons_self a t
    · exact List.mem_cons_of_mem a (by rw [listMax]; exact h1)

lemma foldl_add_shift (l : List ℚ) : ∀ a : ℚ, l.foldl (· + ·) a = a + l.foldl (· + ·) 0 := by
  induction l with
  | nil => intro a; simp
  | cons x t ih =>
    intro a
    rw [List.foldl_cons, List.foldl_cons, ih (a + x), ih (0 + x)]
    ring

lemma foldl_add_le {l : List ℚ} {M : ℚ} (h : ∀ x ∈ l, x ≤ M) :
    l.foldl (· + ·) 0 ≤ (l.length : ℚ) * M := by
  induction l with
  | nil => simp
  | cons x t ih =>
    have hx : x ≤ M := h x (List.mem_cons_self x t)
    have ht : t.foldl (· + ·) 0 ≤ (t.length : ℚ) * M :=
      ih (fun y hy => h y (List.mem_cons_of_mem x hy))
    rw [List.foldl_cons, foldl_add_shift]
    push_cast [List.length_cons]
    nlinarith
  
lemma le_foldl_add {l : List ℚ} {m : ℚ} (h : ∀ x ∈ l, m ≤ x) :
    (l.length : ℚ) * m ≤ l.foldl (· + ·) 0 := by
  induction l with
  | nil => simp
  | cons x t ih =>
    have hx : m ≤ x := h x (List.mem_cons_self x t)
    have ht : (t.length : ℚ) * m ≤ t.foldl (· + ·) 0 :=
      ih (fun y hy => h y (List.mem_cons_of_mem x hy))
    rw [List.foldl_cons, foldl_add_shift]
    push_cast [List.length_cons]
    nlinarith

lemma mem_zipWith_exists {α β γ : Type} {f : α → β → γ} :
    ∀ {as : List α} {bs : List β} {c : γ}, c ∈ List.zipWith f as bs →
      ∃ a b, a ∈ as ∧ b ∈ bs ∧ c = f a b := by
  intro as
  induction as with
  | nil => intro bs c h; simp at h
  | cons a ast ih =>
    intro bs c h
    cases bs with
    | nil => simp at h
    | cons b bst =>
      rw [List.zipWith_cons_cons] at h
      rcases List.mem_cons.mp h with h1 | h2
      · exact ⟨a, b, List.mem_cons_self a ast, List.mem_cons_self b bst, h1⟩
      · obtain ⟨a2, b2, ha, hb, rfl⟩ := ih h2
        exact ⟨a2, b2, List.mem_cons_of_mem a ha, List.mem_cons_of_mem b hb, rfl⟩

lemma memOfGetElem {α : Type} : ∀ {l : List α} {i : ℕ} {x : α}, l[i]? = some x → x ∈ l := by
  intro l
  induction l with
  | nil => intro i x h; simp at h
  | cons a t ih =>
    intro i x h
    cases i with
    | zero => simp at h; simp [h]
    | succ j =>
      simp only [List.getElem?_cons_succ] at h
      exact List.mem_cons_of_mem a (ih h)

/-! ### Facts about `mkStat` and `extractNumericalData` -/

lemma mkStat_column (c : String) (vs : List ℚ) : (mkStat c vs).column = c := rfl

lemma mkStat_min (c : String) (vs : List ℚ) : (mkStat c vs).min = listMin vs := rfl

lemma mkStat_max (c : String) (vs : List ℚ) : (mkStat c vs).max = listMax vs := rfl

lemma mkStat_avg (c : String) (vs : List ℚ) :
    (mkStat c vs).avg = vs.foldl (· + ·) 0 / (vs.length : ℚ) := rfl

lemma mkStat_bounds (c : String) (vs : List ℚ) (h : vs ≠ []) :
    (mkStat c vs).min ≤ (mkStat c vs).avg ∧ (mkStat c vs).avg ≤ (mkStat c vs).max := by
  have hlen : (0 : ℚ) < (vs.length : ℚ) := by
    have := List.length_pos.mpr h
    exact_mod_cast this
  rw [mkStat_min, mkStat_max, mkStat_avg]
  constructor
  · rw [le_div_iff₀ hlen]
    have h1 : (vs.length : ℚ) * listMin vs ≤ vs.foldl (· + ·) 0 :=
      le_foldl_add (fun x hx => listMin_le hx)
    linarith [h1]
  · rw [div_le_iff₀ hlen]
    have h1 : vs.foldl (· + ·) 0 ≤ (vs.length : ℚ) * listMax vs :=
      foldl_add_le (fun x hx => le_listMax hx)
    linarith [h1]

lemma extract_values_len {data : List Row} {vs : List ℚ}
    (h : vs ∈ (extractNumericalData data).values) : vs.length = data.length := by
  cases data with
  | nil => simp [extractNumericalData] at h
  | cons r rs =>
    simp only [extractNumericalData, List.mem_map] at h
    obtain ⟨c, _, rfl⟩ := h
    simp

lemma extract_values_ne_nil {data : List Row} {vs : List ℚ} (hd : data ≠ [])
    (h : vs ∈ (extractNumericalData data).values) : vs ≠ [] := by
  intro hnil
  have := extract_values_len h
  rw [hnil] at this
  exact hd (List.length_eq_zero.mp this.symm)

lemma extract_columns_values_len (data : List Row) :
    (extractNumericalData data).values.length = (extractNumericalData data).columns.length := by
  cases data with
  | nil => rfl
  | cons r rs => simp [extractNumericalData]

lemma calculateStatistics_cons (r : Row) (rs : List Row) :
    calculateStatistics (r :: rs) =
      .list (List.zipWith mkStat (extractNumericalData (r :: rs)).columns
        (extractNumericalData (r :: rs)).values) := rfl

/-- C2: every produced statistic satisfies min ≤ avg ≤ max and stdDev ≥ 0. -/
theorem c2_statistics_invariant (data : List Row) (l : List Stat) (s : Stat)
    (hl : calculateStatistics data = StatsResult.list l) (hs : s ∈ l) :
    s.min ≤ s.avg ∧ s.avg ≤ s.max ∧ 0 ≤ s.stdDev := by
  cases data with
  | nil => exact absurd hl (by simp [calculateStatistics])
  | cons r rs =>
    rw [calculateStatistics_cons] at hl
    injection hl with hl
    rw [← hl] at hs
    obtain ⟨c, vs, _, hvs, rfl⟩ := mem_zipWith_exists hs
    have hne : vs ≠ [] := extract_values_ne_nil (by simp) hvs
    exact ⟨(mkStat_bounds c vs hne).1, (mkStat_bounds c vs hne).2, Real.sqrt_nonneg _⟩

/-- C2 witness: the invariant instantiated on the end-to-end sample data. -/
theorem c2_statistics_invariant_witness :
    salesStat.min ≤ salesStat.avg ∧ salesStat.avg ≤ salesStat.max ∧ 0 ≤ salesStat.stdDev :=
  c2_statistics_invariant sampleRows [salesStat] salesStat
    (by
      rw [show sampleRows = sampleRows.headD [] :: sampleRows.tail from rfl, calculateStatistics_cons]
      rw [show extractNumericalData (sampleRows.headD [] :: sampleRows.tail) =
            ⟨["sales"], [[100, 200, 300]]⟩ from by decide]
      show StatsResult.list [mkStat "sales" [100, 200, 300]] = _
      rw [mkStat]
      norm_num [List.foldl, salesStat, Stat.mk.injEq, listMin, listMax])
    (List.mem_singleton.mpr rfl)

lemma calculateStatistics_sample : calculateStatistics sampleRows = .list [salesStat] := by
  rw [show sampleRows = sampleRows.headD [] :: sampleRows.tail from rfl, calculateStatistics_cons]
  rw [show extractNumericalData (sampleRows.headD [] :: sampleRows.tail) =
        ⟨["sales"], [[100, 200, 300]]⟩ from by decide]
  show StatsResult.list [mkStat "sales" [100, 200, 300]] = _
  rw [mkStat]
  norm_num [List.foldl, salesStat, Stat.mk.injEq, listMin, listMax]

/-- C1: on the rows `[{month:"Jan",sales:100},{month:"Feb",sales:200},{month:"Mar",sales:300}]`
the statistics are exactly one entry, for `sales`, with min 100, max 300,
avg 200, sum 600 and stdDev √(20000/3) ≈ 81.6; with no active filters the
filtered view is the 3 input rows unchanged and in order. -/
theorem c1_end_to_end :
    calculateStatistics sampleRows = .list [salesStat] ∧
    salesStat.stdDev = Real.sqrt ((20000 : ℝ) / 3) ∧
    filteredData sampleRows [] = sampleRows := by
  refine ⟨calculateStatistics_sample, ?_, rfl⟩
  rw [Stat.stdDev]
  norm_num [salesStat]

/-- C5 counterexample: on the empty dataset the statistics computation does
NOT return an empty list — it returns the non-list value `{}`. -/
theorem c5_empty_counterexample :
    calculateStatistics [] ≠ StatsResult.list [] := by
  simp [calculateStatistics]

/-- C5 amended: the empty dataset yields the empty plain object `{}` (a
non-list value, still not an error and not null); a non-empty dataset with
zero numeric columns yields the empty statistics list. -/
theorem c5_empty_amended :
    calculateStatistics [] = StatsResult.emptyObj ∧
    ∀ data : List Row, data ≠ [] → (extractNumericalData data).columns = [] →
      calculateStatistics data = StatsResult.list [] := by
  refine ⟨rfl, ?_⟩
  intro data hne hcols
  cases data with
  | nil => exact absurd rfl hne
  | cons r rs =>
    rw [calculateStatistics_cons, hcols]
    rfl

/-- C5 amended, witness: a non-empty dataset whose single column is not
numeric yields the empty statistics list. -/
theorem c5_empty_amended_witness :
    calculateStatistics [[("name", JSVal.str "x")]] = StatsResult.list [] :=
  c5_empty_amended.2 [[("name", JSVal.str "x")]] (by decide) (by decide)

/-! ### C4: column classification -/

lemma zipWith_mkStat_columns :
    ∀ (cs : List String) (g : String → List ℚ),
      (List.zipWith mkStat cs (cs.map g)).map Stat.column = cs := by
  intro cs
  induction cs with
  | nil => intro g; rfl
  | cons c t ih =>
    intro g
    simp only [List.map_cons, List.zipWith_cons_cons, mkStat_column, ih g]

/-- C4 amended: a column receives a statistic iff the dataset is non-empty,
the column is a key of the FIRST row, and its first-row cell passes the
code's numeric test (`typeof v === 'number' || !isNaN(Number(v))`, under
which `null`, the empty string and numeric strings all qualify); later rows
are never consulted.  Non-qualifying columns are absent from the output. -/
theorem c4_numeric_classification (data : List Row) (col : String) :
    col ∈ statsColumns data ↔
      ∃ firstRow rest, data = firstRow :: rest ∧
        col ∈ firstRow.map Prod.fst ∧
        isNumericCodeCell (lookupRow firstRow col) = true := by
  cases data with
  | nil =>
    simp [statsColumns, calculateStatistics]
  | cons r rs =>
    constructor
    · intro h
      refine ⟨r, rs, rfl, ?_, ?_⟩ <;>
      · rw [statsColumns, calculateStatistics_cons] at h
        simp only [extractNumericalData] at h
        rw [zipWith_mkStat_columns] at h
        rcases List.mem_filter.mp h with ⟨h1, h2⟩
        first
        | exact h1
        | exact h2
    · rintro ⟨firstRow, rest, heq, hmem, hnum⟩
      obtain ⟨rfl, rfl⟩ : firstRow = r ∧ rest = rs := by
        injection heq with h1 h2; exact ⟨h1.symm, h2.symm⟩
      rw [statsColumns, calculateStatistics_cons]
      simp only [extractNumericalData]
      rw [zipWith_mkStat_columns]
      exact List.mem_filter.mpr ⟨hmem, hnum⟩

/-- C4 counterexample: for the dataset `[{a: ""}]` the column `a` receives a
ColumnStatistic (the code treats `""` as numeric since `Number("") = 0`),
while the spec's classification says `a` is not numeric — refuting the
claimed iff. -/
theorem c4_classification_counterexample :
    "a" ∈ statsColumns [[("a", JSVal.str "")]] ∧
    specNumericColumn [[("a", JSVal.str "")]] "a" = false := by
  constructor
  · decide
  · decide

/-! ### C7 / C8: filter semantics -/

lemma mem_filteredData (data : List Row) (fs : List FilterOptions) (row : Row) :
    row ∈ filteredData data fs ↔
      row ∈ data ∧ fs.all (fun f => rowPasses row f) = true := by
  rw [filteredData]
  by_cases hd : data = []
  · subst hd; simp
  · rw [if_neg hd]
    by_cases hf : fs = []
    · subst hf; simp
    · rw [if_neg hf, List.mem_filter]

/-- The two rows `[{a:1,b:"x"}, {a:2,b:"y"}]` of the filter example. -/
def c7rows : List Row :=
  [[("a", JSVal.num 1), ("b", JSVal.str "x")],
   [("a", JSVal.num 2), ("b", JSVal.str "y")]]

/-- The filters `{a greaterThan 1}` and `{b equals "y"}`. -/
def c7filters : List FilterOptions :=
  [⟨"a", FilterOp.greaterThan, FilterVal.num 1⟩,
   ⟨"b", FilterOp.equals, FilterVal.str "y"⟩]

/-- C7: a row is in the filtered view iff it satisfies every active filter
(AND); `equals` coerces types (numeric cell 5 matches string "5"); on the
example rows with `{a greaterThan 1}` and `{b equals "y"}` exactly the second
row survives. -/
theorem c7_filter_and_semantics :
    (∀ (data : List Row) (fs : List FilterOptions) (row : Row),
      row ∈ filteredData data fs ↔
        row ∈ data ∧ fs.all (fun f => rowPasses row f) = true) ∧
    rowPasses [("c", JSVal.num 5)] ⟨"c", FilterOp.equals, FilterVal.str "5"⟩ = true ∧
    filteredData c7rows c7filters =
      [[("a", JSVal.num 2), ("b", JSVal.str "y")]] := by
  refine ⟨mem_filteredData, by decide, by decide⟩

/-- C8: a row whose cell for a filter's column is absent or null fails that
filter (whatever the operator, `notEquals` included) and, when the filter is
active, the row is excluded from the filtered view. -/
theorem c8_null_cell_policy (row : Row) (f : FilterOptions) (data : List Row)
    (fs : List FilterOptions)
    (hmiss : lookupRow row f.column = none ∨ lookupRow row f.column = some JSVal.null)
    (hf : f ∈ fs) :
    rowPasses row f = false ∧ row ∉ filteredData data fs := by
  have hfail : rowPasses row f = false := by
    rw [rowPasses]
    rcases hmiss with h | h <;> rw [h]
  refine ⟨hfail, fun hmem => ?_⟩
  rcases (mem_filteredData data fs row).mp hmem with ⟨_, hall⟩
  have := (List.all_eq_true.mp hall) f hf
  rw [hfail] at this
  exact Bool.false_ne_true this

/-- C8 witness: the row `{a:1}` misses column `c`, so it fails
`{c notEquals 5}` and is excluded. -/
theorem c8_null_cell_policy_witness :
    rowPasses [("a", JSVal.num 1)] ⟨"c", FilterOp.notEquals, FilterVal.num 5⟩ = false ∧
    [("a", JSVal.num 1)] ∉
      filteredData [[("a", JSVal.num 1)]]
        [⟨"c", FilterOp.notEquals, FilterVal.num 5⟩] :=
  c8_null_cell_policy [("a", JSVal.num 1)] ⟨"c", FilterOp.notEquals, FilterVal.num 5⟩
    [[("a", JSVal.num 1)]] [⟨"c", FilterOp.notEquals, FilterVal.num 5⟩]
    (Or.inl (by decide)) (by decide)

/-! ### Facts about the synthesis loop and normalization -/

lemma synthStep_pass (n used : ℕ) (rand : ℕ → ℚ) (cols : List String)
    (vals : List (List ℚ)) (h : 3 ≤ cols.length) :
    synthStep n used rand cols vals = (cols, vals, used) := by
  rw [synthStep, if_pos h]

lemma synthAxes_pass (n : ℕ) (rand : ℕ → ℚ) (cols : List String)
    (vals : List (List ℚ)) (h : 3 ≤ cols.length) :
    synthAxes n rand cols vals = (cols, vals) := by
  simp only [synthAxes]
  rw [synthStep_pass n 0 rand cols vals h]
  rw [synthStep_pass n 0 rand cols vals h]
  rw [synthStep_pass n 0 rand cols vals h]

lemma synthStep_cols_len (n used : ℕ) (rand : ℕ → ℚ) (cols : List String)
    (vals : List (List ℚ)) :
    ((synthStep n used rand cols vals).1).length =
      if 3 ≤ cols.length then cols.length else cols.length + 1 := by
  rw [synthStep]
  split_ifs <;> simp

lemma synthAxes_cols_len (n : ℕ) (rand : ℕ → ℚ) (cols : List String)
    (vals : List (List ℚ)) (h : cols.length ≤ 3) :
    ((synthAxes n rand cols vals).1).length = 3 := by
  simp only [synthAxes]
  have h1 := synthStep_cols_len n 0 rand cols vals
  generalize hg1 : synthStep n 0 rand cols vals = s1 at h1 ⊢
  have h2 := synthStep_cols_len n s1.2.2 rand s1.1 s1.2.1
  generalize hg2 : synthStep n s1.2.2 rand s1.1 s1.2.1 = s2 at h2 ⊢
  have h3 := synthStep_cols_len n s2.2.2 rand s2.1 s2.2.1
  generalize hg3 : synthStep n s2.2.2 rand s2.1 s2.2.1 = s3 at h3 ⊢
  split_ifs at h1 h2 h3 <;> omega

lemma synthStep_vals_inv (n used : ℕ) (rand : ℕ → ℚ) (cols : List String)
    (vals : List (List ℚ)) (hsync : vals.length = cols.length)
    (hall : ∀ a ∈ vals, a.length = n) :
    (synthStep n used rand cols vals).2.1.length =
        ((synthStep n used rand cols vals).1).length ∧
    ∀ a ∈ (synthStep n used rand cols vals).2.1, a.length = n := by
  rw [synthStep]
  split_ifs with h1 h2 h3
  · exact ⟨hsync, hall⟩
  · refine ⟨by simp [hsync], ?_⟩
    intro a ha
    rcases List.mem_append.mp ha with h | h
    · exact hall a h
    · rw [List.mem_singleton.mp h, List.length_map, List.length_range]
  · obtain ⟨v, rfl⟩ : ∃ v, vals = [v] := by
      rcases vals with _ | ⟨v, _ | ⟨w, t⟩⟩
      · simp [h3] at hsync
      · exact ⟨v, rfl⟩
      · simp [h3] at hsync
    refine ⟨by simp [h3], ?_⟩
    intro a ha
    rcases List.mem_append.mp ha with h | h
    · exact hall a h
    · rw [List.mem_singleton.mp h]
      have hv : v.length = n := hall v (List.mem_singleton.mpr rfl)
      rw [List.length_map, List.enum_length]
      simp only [List.headD_cons]
      exact hv
  · refine ⟨by simp [hsync], ?_⟩
    intro a ha
    rcases List.mem_append.mp ha with h | h
    · exact hall a h
    · rw [List.mem_singleton.mp h, List.length_map, List.length_range]

lemma synthAxes_vals_len (n : ℕ) (rand : ℕ → ℚ) (cols : List String)
    (vals : List (List ℚ)) (hsync : vals.length = cols.length)
    (hall : ∀ a ∈ vals, a.length = n) :
    ∀ a ∈ (synthAxes n rand cols vals).2, a.length = n := by
  simp only [synthAxes]
  have h1 := synthStep_vals_inv n 0 rand cols vals hsync hall
  generalize hg1 : synthStep n 0 rand cols vals = s1 at h1 ⊢
  have h2 := synthStep_vals_inv n s1.2.2 rand s1.1 s1.2.1 h1.1 h1.2
  generalize hg2 : synthStep n s1.2.2 rand s1.1 s1.2.1 = s2 at h2 ⊢
  have h3 := synthStep_vals_inv n s2.2.2 rand s2.1 s2.2.1 h2.1 h2.2
  generalize hg3 : synthStep n s2.2.2 rand s2.1 s2.2.1 = s3 at h3 ⊢
  exact h3.2

lemma normalizeAxis_def (l : List ℚ) :
    normalizeAxis l =
      l.map (fun v => if listMax l - listMin l = 0 then 0
        else (v - listMin l) / (listMax l - listMin l) * 2 - 1) := rfl

lemma normalizeAxis_bounds {l : List ℚ} {x : ℚ} (hx : x ∈ normalizeAxis l) :
    -1 ≤ x ∧ x ≤ 1 := by
  rw [normalizeAxis_def] at hx
  obtain ⟨v, hv, rfl⟩ := List.mem_map.mp hx
  by_cases h0 : listMax l - listMin l = 0
  · rw [if_pos h0]; norm_num
  · rw [if_neg h0]
    have h1 : listMin l ≤ v := listMin_le hv
    have h2 : v ≤ listMax l := le_listMax hv
    have hr : 0 < listMax l - listMin l :=
      lt_of_le_of_ne (by linarith) (Ne.symm h0)
    have hd1 : 0 ≤ (v - listMin l) / (listMax l - listMin l) :=
      div_nonneg (by linarith) (le_of_lt hr)
    have hd2 : (v - listMin l) / (listMax l - listMin l) ≤ 1 := by
      rw [div_le_one hr]; linarith
    constructor <;> linarith

lemma normalizeAxis_const {l : List ℚ} (h : ∀ x ∈ l, ∀ y ∈ l, x = y) :
    ∀ z ∈ normalizeAxis l, z = 0 := by
  intro z hz
  rw [normalizeAxis_def] at hz
  obtain ⟨v, hv, rfl⟩ := List.mem_map.mp hz
  have h0 : listMax l - listMin l = 0 := by
    have hne : l ≠ [] := by rintro rfl; simp at hv
    have := h (listMax l) (listMax_mem hne) (listMin l) (listMin_mem hne)
    linarith [this]
  rw [if_pos h0]

lemma axisAt_bounds (axes : List (List ℚ)) (k i : ℕ) :
    -1 ≤ axisAt (axes.map normalizeAxis) k i ∧ axisAt (axes.map normalizeAxis) k i ≤ 1 := by
  rw [axisAt, List.getElem?_map]
  cases hk : axes[k]? with
  | none => simp
  | some a =>
    simp only [Option.map_some', Option.getD_some]
    cases hi : (normalizeAxis a)[i]? with
    | none => simp
    | some x =>
      simp only [Option.getD_some]
      exact normalizeAxis_bounds (memOfGetElem hi)

lemma axisAt_zero_of_len_one (axes : List (List ℚ)) (h : ∀ a ∈ axes, a.length = 1)
    (k i : ℕ) : axisAt (axes.map normalizeAxis) k i = 0 := by
  rw [axisAt, List.getElem?_map]
  cases hk : axes[k]? with
  | none => simp
  | some a =>
    simp only [Option.map_some', Option.getD_some]
    have ha : a.length = 1 := h a (memOfGetElem hk)
    obtain ⟨q, rfl⟩ : ∃ q, a = [q] := by
      rcases a with _ | ⟨q, _ | ⟨w, t⟩⟩
      · simp at ha
      · exact ⟨q, rfl⟩
      · simp at ha
    have hnorm : normalizeAxis [q] = [0] := by
      rw [normalizeAxis_def]
      simp [listMin, listMax]
    rw [hnorm]
    cases i with
    | zero => simp
    | succ j => simp

lemma buildPoints_mem {f : ℕ → Except Unit Point3D} :
    ∀ {l : List ℕ} {out : List Point3D}, buildPoints f l = .ok out →
      ∀ p ∈ out, ∃ i ∈ l, f i = .ok p := by
  intro l
  induction l with
  | nil =>
    intro out h p hp
    rw [buildPoints] at h
    injection h with h
    rw [← h] at hp
    simp at hp
  | cons i is ih =>
    intro out h p hp
    rw [buildPoints] at h
    cases hf : f i with
    | error e => rw [hf] at h; exact absurd h (by simp)
    | ok q =>
      rw [hf] at h
      cases hb : buildPoints f is with
      | error e => rw [hb] at h; exact absurd h (by simp)
      | ok ps =>
        rw [hb] at h
        injection h with h
        rw [← h] at hp
        rcases List.mem_cons.mp hp with rfl | hmem
        · exact ⟨i, List.mem_cons_self i is, hf⟩
        · obtain ⟨j, hj, hfj⟩ := ih hb p hmem
          exact ⟨j, List.mem_cons_of_mem i hj, hfj⟩

lemma mkPoint_ok {values nv : List (List ℚ)} {i : ℕ} {p : Point3D}
    (h : mkPoint values nv i = .ok p) :
    p.x = axisAt nv 0 i ∧ p.y = axisAt nv 1 i ∧ p.z = axisAt nv 2 i := by
  rw [mkPoint] at h
  cases hv : pointValue values i with
  | error e => rw [hv] at h; exact absurd h (by simp [Except.map])
  | ok v =>
    rw [hv] at h
    simp only [Except.map] at h
    injection h with h
    rw [← h]
    exact ⟨rfl, rfl, rfl⟩

/-- C3: every emitted point has x, y, z in [-1, 1]; a constant axis (range 0)
normalizes to coordinate 0 everywhere, so in particular a single-row dataset
yields all-zero coordinates. -/
theorem c3_normalization_bounds :
    (∀ l : List ℚ, (∀ x ∈ l, ∀ y ∈ l, x = y) → ∀ z ∈ normalizeAxis l, z = 0) ∧
    ∀ (data : List Row) (rand : ℕ → ℚ) (vis : Vis3D),
      prepare3DData data rand = Except.ok vis →
      (∀ p ∈ vis.points,
        (-1 ≤ p.x ∧ p.x ≤ 1) ∧ (-1 ≤ p.y ∧ p.y ≤ 1) ∧ (-1 ≤ p.z ∧ p.z ≤ 1)) ∧
      (data.length = 1 → ∀ p ∈ vis.points, p.x = 0 ∧ p.y = 0 ∧ p.z = 0) := by
  refine ⟨fun l => normalizeAxis_const, ?_⟩
  intro data rand vis h
  by_cases hd : data = []
  · subst hd
    rw [prepare3DData, if_pos rfl] at h
    injection h with h
    rw [← h]
    exact ⟨fun p hp => absurd hp (by simp), fun h1 p hp => absurd hp (by simp)⟩
  · rw [prepare3DData, if_neg hd] at h
    cases hb : buildPoints
        (mkPoint (extractNumericalData data).values
          ((usableAxes data rand).2.map normalizeAxis))
        (List.range data.length) with
    | error e => rw [hb] at h; exact absurd h (by simp)
    | ok pts =>
      rw [hb] at h
      injection h with h
      rw [← h]
      constructor
      · intro p hp
        obtain ⟨i, _, hfi⟩ := buildPoints_mem hb p hp
        obtain ⟨hx, hy, hz⟩ := mkPoint_ok hfi
        rw [hx, hy, hz]
        exact ⟨axisAt_bounds _ 0 i, axisAt_bounds _ 1 i, axisAt_bounds _ 2 i⟩
      · intro hlen p hp
        obtain ⟨i, _, hfi⟩ := buildPoints_mem hb p hp
        obtain ⟨hx, hy, hz⟩ := mkPoint_ok hfi
        have hall : ∀ a ∈ (usableAxes data rand).2, a.length = 1 := by
          intro a ha
        
          have hsync : ((extractNumericalData data).values.take 3).length =
              ((extractNumericalData data).columns.take 3).length := by
            rw [List.length_take, List.length_take, extract_columns_values_len]
          have hvals : ∀ b ∈ (extractNumericalData data).values.take 3,
              b.length = data.length := fun b hb2 =>
            extract_values_len (List.take_subset 3 _ hb2)
          have := synthAxes_vals_len data.length rand _ _ hsync hvals a
            (by rw [usableAxes] at ha; exact ha)
          rw [hlen] at this
          exact this
        rw [hx, hy, hz, axisAt_zero_of_len_one _ hall, axisAt_zero_of_len_one _ hall,
          axisAt_zero_of_len_one _ hall]
        exact ⟨rfl, rfl, rfl⟩

lemma normalizeAxis_singleton (q : ℚ) : normalizeAxis [q] = [0] := by
  rw [normalizeAxis_def]
  simp [listMin, listMax]

/-- A single row with three numeric columns (used to instantiate the
projection theorems). -/
def threeColRow : List Row :=
  [[("a", JSVal.num 1), ("b", JSVal.num 2), ("c", JSVal.num 3)]]

lemma prep_threeCol (rand : ℕ → ℚ) :
    prepare3DData threeColRow rand =
      Except.ok ⟨[⟨0, 0, 0, some 1⟩], ["a", "b", "c"]⟩ := by
  have hex : extractNumericalData threeColRow = ⟨["a", "b", "c"], [[1], [2], [3]]⟩ := by decide
  have hua : usableAxes threeColRow rand = (["a", "b", "c"], [[1], [2], [3]]) := by
    rw [usableAxes, hex]
    exact synthAxes_pass _ _ _ _ (by decide)
  rw [prepare3DData, if_neg (by decide), hex, hua]
  have hmap : [[(1:ℚ)], [2], [3]].map normalizeAxis = [[0], [0], [0]] := by
    simp [normalizeAxis_singleton]
  rw [hmap]
  rfl

/-- C3 witness: the bounds instantiated on a single-row three-column dataset. -/
theorem c3_normalization_bounds_witness :
    (∀ p ∈ (Vis3D.mk [⟨0, 0, 0, some 1⟩] ["a", "b", "c"]).points,
      (-1 ≤ p.x ∧ p.x ≤ 1) ∧ (-1 ≤ p.y ∧ p.y ≤ 1) ∧ (-1 ≤ p.z ∧ p.z ≤ 1)) ∧
    (threeColRow.length = 1 →
      ∀ p ∈ (Vis3D.mk [⟨0, 0, 0, some 1⟩] ["a", "b", "c"]).points,
        p.x = 0 ∧ p.y = 0 ∧ p.z = 0) :=
  c3_normalization_bounds.2 threeColRow zeroRand _ (prep_threeCol zeroRand)

/-- C6: on a non-empty dataset with zero numeric columns the projector does
NOT return points — it crashes: `values[0]` is `undefined`, and
`values[0][i]` throws a TypeError. -/
theorem c6_zero_numeric_crash :
    prepare3DData [[("name", JSVal.str "x")]] zeroRand = Except.error () := rfl

/-- C9 counterexample: the empty dataset is a dataset, and the projector
returns `axisLabels = []` for it — length 0, not 3. -/
theorem c9_axis_labels_counterexample :
    prepare3DData [] zeroRand = Except.ok ⟨[], []⟩ ∧
    (Vis3D.mk [] []).axisLabels.length ≠ 3 := ⟨rfl, by simp⟩

/-- C9 amended: whenever the projector returns a result on a NON-EMPTY
dataset, `axisLabels` has length exactly 3 (missing axes synthesized); on the
empty dataset it returns `{points: [], axisLabels: []}` instead. -/
theorem c9_axis_labels_length :
    (∀ (data : List Row) (rand : ℕ → ℚ) (vis : Vis3D), data ≠ [] →
      prepare3DData data rand = Except.ok vis → vis.axisLabels.length = 3) ∧
    ∀ rand : ℕ → ℚ, prepare3DData [] rand = Except.ok ⟨[], []⟩ := by
  refine ⟨?_, fun rand => rfl⟩
  intro data rand vis hd h
  rw [prepare3DData, if_neg hd] at h
  cases hb : buildPoints
      (mkPoint (extractNumericalData data).values
        ((usableAxes data rand).2.map normalizeAxis))
      (List.range data.length) with
  | error e => rw [hb] at h; exact absurd h (by simp)
  | ok pts =>
    rw [hb] at h
    injection h with h
    rw [← h]
    show ((usableAxes data rand).1.take 3).length = 3
    have h3 : ((usableAxes data rand).1).length = 3 := by
      rw [usableAxes]
      exact synthAxes_cols_len _ _ _ _ (by rw [List.length_take]; omega)
    rw [List.length_take, h3]
    simp

/-- C9 witness: the amended claim instantiated on a one-row three-column
dataset. -/
theorem c9_axis_labels_length_witness :
    (Vis3D.mk [⟨0, 0, 0, some 1⟩] ["a", "b", "c"]).axisLabels.length = 3 :=
  c9_axis_labels_length.1 threeColRow zeroRand _ (by decide) (prep_threeCol zeroRand)

/-- C10: with at least 3 numeric columns no axis is synthesized, so the
projector never consults the random source: two runs agree exactly. -/
theorem c10_deterministic_projection (data : List Row) (r1 r2 : ℕ → ℚ)
    (h : 3 ≤ (extractNumericalData data).columns.length) :
    prepare3DData data r1 = prepare3DData data r2 := by
  by_cases hd : data = []
  · subst hd; rfl
  · rw [prepare3DData, prepare3DData, if_neg hd, if_neg hd]
    have hu : ∀ r : ℕ → ℚ, usableAxes data r =
        ((extractNumericalData data).columns.take 3,
         (extractNumericalData data).values.take 3) := by
      intro r
      rw [usableAxes]
      exact synthAxes_pass _ _ _ _ (by rw [List.length_take]; omega)
    rw [hu r1, hu r2]

/-- C10 witness: two different random sources on a three-numeric-column
dataset give identical output. -/
theorem c10_deterministic_projection_witness :
    prepare3DData threeColRow zeroRand = prepare3DData threeColRow halfRand :=
  c10_deterministic_projection threeColRow zeroRand halfRand (by decide)
